import Mathlib

/-!
Verification development for the chunked time-series storage engine in
`mark_storage.py` of this repository.

The embedding models the writer (`ChunkWriter.add_packet` / `ChunkWriter.flush`)
and the reader (`cmd_read`) over an explicit storage-directory state.

Modelling choices, each justified by the source:
* Timestamps are float64 epoch seconds in the source; they are embedded as `ℚ`
  (only comparisons, `min` and `max` are performed on them, never rounding
  arithmetic, so the embedding is exact on every representable float).
* A chunk filename is `str(timestamp_buffer[0]) + ".parquet"`; since `str` is
  injective on float values, the filename is modelled by the leading timestamp
  itself.
* The storage directory is the pair of the parquet files (an association list,
  most recent write first, so that a second write with the same name shadows —
  i.e. overwrites — the first) and the `index.csv` file (`none` when the file
  does not exist yet, matching the `header = not self.index_path.exists()`
  logic of `flush`).
* A particle's two matrices are `List (List Int)` values; `flush` flattens each
  matrix to one row of columns, mirroring `reshape(shape[0], -1)`.
* `pd.concat([df_ts, df_scat, df_spec], axis = 1)` is modelled by `zipRows`;
  the NaN padding pandas performs on length-mismatched frames is not modelled,
  and every theorem that reaches `flush` assumes shape-consistent records
  (the data-model invariant of the spec).
-/

namespace MarkStorage

/-- One ingested packet, as produced by `data_generator.generate_packet`:
a timestamp vector and two stacks of per-particle matrices. -/
structure Packet where
  timestamps : List ℚ
  scattering : List (List (List Int))
  spectral : List (List (List Int))
deriving DecidableEq

/-- `packet["scattering"].shape[0]`, the count `add_packet` adds to the
particle counter. -/
def particleCount (p : Packet) : Nat := p.scattering.length

/-- A packet is shape-consistent when its three components share the leading
dimension (the data-model invariant of the spec). -/
def WellShaped (p : Packet) : Prop :=
  p.timestamps.length = p.scattering.length ∧ p.timestamps.length = p.spectral.length

instance (p : Packet) : Decidable (WellShaped p) := by
  unfold WellShaped; infer_instance

/-- One row of a persisted chunk file: the `ts_0` column plus the flattened
`scat_*` and `spec_*` columns. -/
structure Row where
  ts_0 : ℚ
  scat : List Int
  spec : List Int
deriving DecidableEq

/-- One data row of `index.csv`, as written by `flush`. -/
structure IndexEntry where
  filename : ℚ
  min_ts : ℚ
  max_ts : ℚ
deriving DecidableEq

/-- The header row `to_csv` writes on first creation: the column names of the
dataframe built in `flush` (line 175 of `mark_storage.py`). -/
def indexCsvHeader : List String := ["filename", "min_ts", "max_ts"]

/-- The `index.csv` file: its header line and its data rows. -/
structure IndexCsv where
  header : List String
  rows : List IndexEntry
deriving DecidableEq

/-- The storage directory: the chunk files (most recent write first) and the
index file (`none` while `index.csv` does not exist). -/
structure Storage where
  files : List (ℚ × List Row)
  indexFile : Option IndexCsv
deriving DecidableEq

/-- The in-memory state of `ChunkWriter`: the three parallel buffer lists and
the running particle counter. -/
structure ChunkWriter where
  buffer_timestamps : List (List ℚ)
  buffer_scattering : List (List (List (List Int)))
  buffer_spectral : List (List (List (List Int)))
  particle_counter : Nat
deriving DecidableEq

/-- A fresh `ChunkWriter` (its `__init__`). -/
def initWriter : ChunkWriter :=
  { buffer_timestamps := [], buffer_scattering := [], buffer_spectral := [], particle_counter := 0 }

/-- A fresh storage directory: no chunk files, no `index.csv`. -/
def initStorage : Storage := { files := [], indexFile := none }

/-- Row-wise zip of the three column blocks, modelling
`pd.concat([df_ts, df_scat, df_spec], axis = 1)` on equal-length frames. -/
def zipRows : List ℚ → List (List Int) → List (List Int) → List Row
  | t :: ts, a :: as, b :: bs => ⟨t, a, b⟩ :: zipRows ts as bs
  | _, _, _ => []

/-- `numpy`'s `arr.min()` on a nonempty array (left fold of `min` over the
elements); the `[]` case is never reached by `flush`. -/
def tsMin : List ℚ → ℚ
  | [] => 0
  | x :: xs => xs.foldl min x

/-- `numpy`'s `arr.max()` on a nonempty array. -/
def tsMax : List ℚ → ℚ
  | [] => 0
  | x :: xs => xs.foldl max x

/-- `ChunkWriter.flush`: no-op on a zero counter; otherwise concatenate the
buffers, reshape the matrices, write the chunk file named after the leading
timestamp (overwriting any existing file of that name), append one row to
`index.csv` (creating it with a header if absent), and reset the buffer. -/
def flush (w : ChunkWriter) (s : Storage) : ChunkWriter × Storage :=
  if w.particle_counter = 0 then (w, s)
  else
    let timestamp_buffer := w.buffer_timestamps.flatten
    let scat_buffer := w.buffer_scattering.flatten.map List.flatten
    let spec_buffer := w.buffer_spectral.flatten.map List.flatten
    let df := zipRows timestamp_buffer scat_buffer spec_buffer
    let filename := timestamp_buffer.headD 0
    let entry : IndexEntry :=
      { filename := filename, min_ts := tsMin timestamp_buffer, max_ts := tsMax timestamp_buffer }
    let indexFile : Option IndexCsv :=
      match s.indexFile with
      | none => some { header := indexCsvHeader, rows := [entry] }
      | some f => some { header := f.header, rows := f.rows ++ [entry] }
    (initWriter, { files := (filename, df) :: s.files, indexFile := indexFile })

/-- The buffering part of `add_packet` (lines 139–143): append the packet's
components to the three buffer lists and bump the counter by
`packet["scattering"].shape[0]`. -/
def bufferPacket (w : ChunkWriter) (p : Packet) : ChunkWriter :=
  { buffer_timestamps := w.buffer_timestamps ++ [p.timestamps]
    buffer_scattering := w.buffer_scattering ++ [p.scattering]
    buffer_spectral := w.buffer_spectral ++ [p.spectral]
    particle_counter := w.particle_counter + particleCount p }

/-- `ChunkWriter.add_packet`: buffer the packet, then flush synchronously when
the counter reaches the hard-coded threshold `200000`. -/
def add_packet (w : ChunkWriter) (s : Storage) (p : Packet) : ChunkWriter × Storage :=
  let w2 := bufferPacket w p
  if 200000 ≤ w2.particle_counter then flush w2 s else (w2, s)

/-- `pd.read_parquet(storage_dir / name)`: the current content of the file, or
`none` when the file does not exist. -/
def lookupFile (files : List (ℚ × List Row)) (name : ℚ) : Option (List Row) :=
  (files.find? (fun kv => kv.1 == name)).map (fun kv => kv.2)

/-- The index pruning mask of `cmd_read` (line 105):
`(max_ts >= start_ts) & (min_ts <= stop_ts)`. -/
def overlapMask (e : IndexEntry) (start_ts stop_ts : ℚ) : Bool :=
  decide (start_ts ≤ e.max_ts) && decide (e.min_ts ≤ stop_ts)

/-- The per-row mask of `cmd_read` (line 112):
`(ts_0 >= start_ts) & (ts_0 <= stop_ts)`. -/
def rowMask (r : Row) (start_ts stop_ts : ℚ) : Bool :=
  decide (start_ts ≤ r.ts_0) && decide (r.ts_0 ≤ stop_ts)

/-- Failure modes of the read path: `pd.read_csv` on a missing `index.csv`, or
`pd.read_parquet` on a missing chunk file. -/
inductive ReadError where
  | missingIndex : ReadError
  | missingChunk : ℚ → ReadError
deriving DecidableEq

instance {ε α : Type} [DecidableEq ε] [DecidableEq α] : DecidableEq (Except ε α) :=
  fun a b =>
    match a, b with
    | Except.error e1, Except.error e2 =>
      if h : e1 = e2 then Decidable.isTrue (by rw [h]) else Decidable.isFalse (by simp [h])
    | Except.ok v1, Except.ok v2 =>
      if h : v1 = v2 then Decidable.isTrue (by rw [h]) else Decidable.isFalse (by simp [h])
    | Except.error _, Except.ok _ => Decidable.isFalse (by simp)
    | Except.ok _, Except.error _ => Decidable.isFalse (by simp)

/-- The candidate loop of `cmd_read` (lines 109–113): open each selected chunk
in index order, filter its rows, and collect the per-chunk frames; also traces
which files were opened. -/
def readLoop (files : List (ℚ × List Row)) (entries : List IndexEntry)
    (start_ts stop_ts : ℚ) : Except ReadError (List ℚ × List (List Row)) :=
  match entries with
  | [] => Except.ok ([], [])
  | e :: rest =>
    match lookupFile files e.filename with
    | none => Except.error (ReadError.missingChunk e.filename)
    | some chunk_df =>
      match readLoop files rest start_ts stop_ts with
      | Except.error err => Except.error err
      | Except.ok (opened, results) =>
        Except.ok (e.filename :: opened, chunk_df.filter (fun r => rowMask r start_ts stop_ts) :: results)

/-- `cmd_read`: load the index, prune it with `overlapMask`, read and filter
the selected chunks, and either report "no data found" (`none`, when no index
entry was selected) or the concatenation of the per-chunk frames. The first
component of the result is the trace of opened chunk files. -/
def cmd_read (s : Storage) (start_ts stop_ts : ℚ) :
    Except ReadError (List ℚ × Option (List Row)) :=
  match s.indexFile with
  | none => Except.error ReadError.missingIndex
  | some idx =>
    match readLoop s.files (idx.rows.filter (fun e => overlapMask e start_ts stop_ts)) start_ts stop_ts with
    | Except.error err => Except.error err
    | Except.ok (opened, results) =>
      if results.isEmpty then Except.ok (opened, none)
      else Except.ok (opened, some results.flatten)

/-- One writer operation: an `add_packet` call or an explicit `flush()` call. -/
inductive Op where
  | add : Packet → Op
  | flush : Op

/-- Execute one operation on the (writer, storage) pair. -/
def step (ws : ChunkWriter × Storage) : Op → ChunkWriter × Storage
  | Op.add p => add_packet ws.1 ws.2 p
  | Op.flush => flush ws.1 ws.2

/-- Execute a list of operations from a given state. -/
def runFrom (ws : ChunkWriter × Storage) (ops : List Op) : ChunkWriter × Storage :=
  ops.foldl step ws

/-- Execute a list of operations from the initial state. -/
def run (ops : List Op) : ChunkWriter × Storage :=
  runFrom (initWriter, initStorage) ops

/-- The packets fed to `add_packet` during a list of operations. -/
def opPackets : List Op → List Packet
  | [] => []
  | Op.add p :: rest => p :: opPackets rest
  | Op.flush :: rest => opPackets rest

/-- `cmd_write`'s ingestion loop followed by the final explicit flush. -/
def ingest (ps : List Packet) : ChunkWriter × Storage :=
  run (ps.map Op.add ++ [Op.flush])

/-- A sequence of bare `add_packet` calls (no trailing explicit flush). -/
def addPackets (w : ChunkWriter) (s : Storage) (ps : List Packet) : ChunkWriter × Storage :=
  ps.foldl (fun ws p => add_packet ws.1 ws.2 p) (w, s)

/-- The rows a packet contributes to a chunk: its timestamps zipped with its
flattened matrices. -/
def packetRows (p : Packet) : List Row :=
  zipRows p.timestamps (p.scattering.map List.flatten) (p.spectral.map List.flatten)

/-- All rows carried by a sequence of ingested packets, in ingestion order. -/
def ingestedRows (ps : List Packet) : List Row :=
  (ps.map packetRows).flatten

/-- The rows the current buffer would produce if flushed now. -/
def bufferRows (w : ChunkWriter) : List Row :=
  zipRows w.buffer_timestamps.flatten
    (w.buffer_scattering.flatten.map List.flatten)
    (w.buffer_spectral.flatten.map List.flatten)

/-- The filename `flush` derives for a chunk: its leading `ts_0` value. -/
def chunkFileName (c : List Row) : ℚ :=
  (c.map Row.ts_0).headD 0

/-- The index entry `flush` writes for a chunk. -/
def chunkEntry (c : List Row) : IndexEntry :=
  { filename := chunkFileName c
    min_ts := tsMin (c.map Row.ts_0)
    max_ts := tsMax (c.map Row.ts_0) }

/-! ### Helper lemmas about `zipRows` -/

theorem zipRows_nil (as bs : List (List Int)) : zipRows [] as bs = [] := by
  cases as <;> cases bs <;> rfl

@[simp] theorem zipRows_cons (t : ℚ) (ts : List ℚ) (a : List Int) (as : List (List Int))
    (b : List Int) (bs : List (List Int)) :
    zipRows (t :: ts) (a :: as) (b :: bs) = ⟨t, a, b⟩ :: zipRows ts as bs := rfl

theorem zipRows_length : ∀ (ts : List ℚ) (as bs : List (List Int)),
    ts.length = as.length → ts.length = bs.length → (zipRows ts as bs).length = ts.length := by
  intro ts
  induction ts with
  | nil => intro as bs _ _; rw [zipRows_nil]; rfl
  | cons t ts ih =>
    intro as bs h1 h2
    cases as with
    | nil => simp at h1
    | cons a as =>
      cases bs with
      | nil => simp at h2
      | cons b bs =>
        simp only [zipRows_cons, List.length_cons]
        simp only [List.length_cons] at h1 h2
        rw [ih as bs (Nat.succ_injective h1) (Nat.succ_injective h2)]

theorem zipRows_append : ∀ (ts1 : List ℚ) (as1 bs1 : List (List Int))
    (ts2 : List ℚ) (as2 bs2 : List (List Int)),
    ts1.length = as1.length → ts1.length = bs1.length →
    zipRows (ts1 ++ ts2) (as1 ++ as2) (bs1 ++ bs2) =
      zipRows ts1 as1 bs1 ++ zipRows ts2 as2 bs2 := by
  intro ts1
  induction ts1 with
  | nil =>
    intro as1 bs1 ts2 as2 bs2 h1 h2
    have ha : as1 = [] := List.length_eq_zero.mp h1.symm
    have hb : bs1 = [] := List.length_eq_zero.mp h2.symm
    subst ha; subst hb
    simp [zipRows_nil]
  | cons t ts ih =>
    intro as1 bs1 ts2 as2 bs2 h1 h2
    cases as1 with
    | nil => simp at h1
    | cons a as =>
      cases bs1 with
      | nil => simp at h2
      | cons b bs =>
        simp only [List.cons_append, zipRows_cons]
        simp only [List.length_cons] at h1 h2
        rw [ih as bs ts2 as2 bs2 (Nat.succ_injective h1) (Nat.succ_injective h2)]

theorem zipRows_map_ts : ∀ (ts : List ℚ) (as bs : List (List Int)),
    ts.length = as.length → ts.length = bs.length →
    (zipRows ts as bs).map Row.ts_0 = ts := by
  intro ts
  induction ts with
  | nil => intro as bs _ _; rw [zipRows_nil]; rfl
  | cons t ts ih =>
    intro as bs h1 h2
    cases as with
    | nil => simp at h1
    | cons a as =>
      cases bs with
      | nil => simp at h2
      | cons b bs =>
        simp only [zipRows_cons, List.map_cons]
        simp only [List.length_cons] at h1 h2
        rw [ih as bs (Nat.succ_injective h1) (Nat.succ_injective h2)]

theorem zipRows_replicate (n : Nat) (t : ℚ) (a b : List Int) :
    zipRows (List.replicate n t) (List.replicate n a) (List.replicate n b) =
      List.replicate n ⟨t, a, b⟩ := by
  induction n with
  | zero => rfl
  | succ n ih => simp only [List.replicate_succ, zipRows_cons, ih]

/-! ### Helper lemmas about `tsMin` and `tsMax` -/

theorem foldl_min_mem (xs : List ℚ) : ∀ a : ℚ, xs.foldl min a ∈ a :: xs := by
  induction xs with
  | nil => intro a; simp
  | cons x xs ih =>
    intro a
    simp only [List.foldl_cons]
    rcases List.mem_cons.mp (ih (min a x)) with h2 | h2
    · rcases min_choice a x with h3 | h3
      · rw [h2, h3]; exact List.mem_cons_self _ _
      · rw [h2, h3]; exact List.mem_cons_of_mem _ (List.mem_cons_self _ _)
    · exact List.mem_cons_of_mem _ (List.mem_cons_of_mem _ h2)

theorem foldl_min_le (xs : List ℚ) : ∀ a y : ℚ, y ∈ a :: xs → xs.foldl min a ≤ y := by
  induction xs with
  | nil =>
    intro a y hy
    rw [List.mem_singleton] at hy
    simp [hy]
  | cons x xs ih =>
    intro a y hy
    simp only [List.foldl_cons]
    rcases List.mem_cons.mp hy with heq | hy2
    · rw [heq]; exact le_trans (ih (min a x) _ (List.mem_cons_self _ _)) (min_le_left a x)
    · rcases List.mem_cons.mp hy2 with heq | hy3
      · rw [heq]; exact le_trans (ih (min a x) _ (List.mem_cons_self _ _)) (min_le_right a x)
      · exact ih (min a x) y (List.mem_cons_of_mem _ hy3)

theorem foldl_max_mem (xs : List ℚ) : ∀ a : ℚ, xs.foldl max a ∈ a :: xs := by
  induction xs with
  | nil => intro a; simp
  | cons x xs ih =>
    intro a
    simp only [List.foldl_cons]
    rcases List.mem_cons.mp (ih (max a x)) with h2 | h2
    · rcases max_choice a x with h3 | h3
      · rw [h2, h3]; exact List.mem_cons_self _ _
      · rw [h2, h3]; exact List.mem_cons_of_mem _ (List.mem_cons_self _ _)
    · exact List.mem_cons_of_mem _ (List.mem_cons_of_mem _ h2)

theorem le_foldl_max (xs : List ℚ) : ∀ a y : ℚ, y ∈ a :: xs → y ≤ xs.foldl max a := by
  induction xs with
  | nil =>
    intro a y hy
    rw [List.mem_singleton] at hy
    simp [hy]
  | cons x xs ih =>
    intro a y hy
    simp only [List.foldl_cons]
    rcases List.mem_cons.mp hy with heq | hy2
    · rw [heq]; exact le_trans (le_max_left a x) (ih (max a x) _ (List.mem_cons_self _ _))
    · rcases List.mem_cons.mp hy2 with heq | hy3
      · rw [heq]; exact le_trans (le_max_right a x) (ih (max a x) _ (List.mem_cons_self _ _))
      · exact ih (max a x) y (List.mem_cons_of_mem _ hy3)

theorem tsMin_mem : ∀ l : List ℚ, l ≠ [] → tsMin l ∈ l
  | [], h => absurd rfl h
  | x :: xs, _ => foldl_min_mem xs x

theorem tsMin_le : ∀ l : List ℚ, ∀ y ∈ l, tsMin l ≤ y
  | [], y, hy => absurd hy (List.not_mem_nil y)
  | x :: xs, y, hy => foldl_min_le xs x y hy

theorem tsMax_mem : ∀ l : List ℚ, l ≠ [] → tsMax l ∈ l
  | [], h => absurd rfl h
  | x :: xs, _ => foldl_max_mem xs x

theorem le_tsMax : ∀ l : List ℚ, ∀ y ∈ l, y ≤ tsMax l
  | [], y, hy => absurd hy (List.not_mem_nil y)
  | x :: xs, y, hy => le_foldl_max xs x y hy

theorem tsMin_le_tsMax (l : List ℚ) (h : l ≠ []) : tsMin l ≤ tsMax l :=
  tsMin_le l (tsMax l) (tsMax_mem l h)

theorem foldl_min_replicate (n : Nat) (a : ℚ) : (List.replicate n a).foldl min a = a := by
  induction n with
  | zero => rfl
  | succ n ih => simp only [List.replicate_succ, List.foldl_cons, min_self, ih]

theorem foldl_max_replicate (n : Nat) (a : ℚ) : (List.replicate n a).foldl max a = a := by
  induction n with
  | zero => rfl
  | succ n ih => simp only [List.replicate_succ, List.foldl_cons, max_self, ih]

theorem tsMin_replicate (n : Nat) (a : ℚ) (h : n ≠ 0) : tsMin (List.replicate n a) = a := by
  cases n with
  | zero => exact absurd rfl h
  | succ n => simp only [List.replicate_succ, tsMin, foldl_min_replicate]

theorem tsMax_replicate (n : Nat) (a : ℚ) (h : n ≠ 0) : tsMax (List.replicate n a) = a := by
  cases n with
  | zero => exact absurd rfl h
  | succ n => simp only [List.replicate_succ, tsMax, foldl_max_replicate]

/-! ### Helper lemmas about the read path -/

theorem lookupFile_of_nodup : ∀ (fs : List (ℚ × List Row)) (k : ℚ) (v : List Row),
    (fs.map Prod.fst).Nodup → (k, v) ∈ fs → lookupFile fs k = some v := by
  intro fs
  induction fs with
  | nil => intro k v _ hm; exact absurd hm (List.not_mem_nil _)
  | cons kv rest ih =>
    intro k v hnd hm
    obtain ⟨k1, v1⟩ := kv
    simp only [List.map_cons, List.nodup_cons] at hnd
    by_cases hk : k1 = k
    · subst hk
      have hv : v1 = v := by
        rcases List.mem_cons.mp hm with heq | hm2
        · exact (congrArg Prod.snd heq).symm
        · exact absurd (List.mem_map_of_mem Prod.fst hm2) hnd.1
      subst hv
      unfold lookupFile
      rw [List.find?_cons_of_pos _ (by simp)]
      rfl
    · have hm2 : (k, v) ∈ rest := by
        rcases List.mem_cons.mp hm with heq | hm2
        · exact absurd (congrArg Prod.fst heq.symm) hk
        · exact hm2
      unfold lookupFile
      rw [List.find?_cons_of_neg _ (by simp [hk])]
      exact ih k v hnd.2 hm2

theorem readLoop_ok (files : List (ℚ × List Row)) (lo hi : ℚ) :
    ∀ entries : List IndexEntry,
    (∀ e ∈ entries, (lookupFile files e.filename).isSome) →
    readLoop files entries lo hi =
      Except.ok (entries.map IndexEntry.filename,
        entries.map (fun e =>
          ((lookupFile files e.filename).getD []).filter (fun r => rowMask r lo hi))) := by
  intro entries
  induction entries with
  | nil => intro _; rfl
  | cons e rest ih =>
    intro h
    obtain ⟨c, hc⟩ := Option.isSome_iff_exists.mp (h e (List.mem_cons_self _ _))
    rw [readLoop, hc, ih (fun x hx => h x (List.mem_cons_of_mem _ hx))]
    simp [hc]

/-! ### The reachable-state invariant relating writer, storage and ingested packets -/

theorem flatten_map_length_eq {α β : Type} (A : List (List α)) (B : List (List β))
    (h : A.map List.length = B.map List.length) : A.flatten.length = B.flatten.length := by
  rw [List.length_flatten, List.length_flatten, h]

theorem ingestedRows_append (ps qs : List Packet) :
    ingestedRows (ps ++ qs) = ingestedRows ps ++ ingestedRows qs := by
  simp [ingestedRows]

/-- The invariant tying together the ingested packets `ps`, the flushed chunk
contents `chunks` (in flush order), the writer buffer and the storage state. -/
structure Inv (ps : List Packet) (chunks : List (List Row)) (w : ChunkWriter) (s : Storage) :
    Prop where
  inv_index : s.indexFile =
    if chunks = [] then none else some { header := indexCsvHeader, rows := chunks.map chunkEntry }
  inv_files : s.files = (chunks.map (fun c => (chunkFileName c, c))).reverse
  inv_ne : ∀ c ∈ chunks, c ≠ []
  inv_split : chunks.flatten ++ bufferRows w = ingestedRows ps
  inv_scat_len : w.buffer_scattering.map List.length = w.buffer_timestamps.map List.length
  inv_spec_len : w.buffer_spectral.map List.length = w.buffer_timestamps.map List.length
  inv_counter : w.particle_counter = (w.buffer_timestamps.map List.length).sum

theorem buffer_ts_scat_len {w : ChunkWriter}
    (hsc : w.buffer_scattering.map List.length = w.buffer_timestamps.map List.length) :
    w.buffer_timestamps.flatten.length = (w.buffer_scattering.flatten.map List.flatten).length := by
  rw [List.length_map]
  exact (flatten_map_length_eq _ _ hsc).symm

theorem buffer_ts_spec_len {w : ChunkWriter}
    (hsp : w.buffer_spectral.map List.length = w.buffer_timestamps.map List.length) :
    w.buffer_timestamps.flatten.length = (w.buffer_spectral.flatten.map List.flatten).length := by
  rw [List.length_map]
  exact (flatten_map_length_eq _ _ hsp).symm

theorem bufferRows_length {w : ChunkWriter}
    (hsc : w.buffer_scattering.map List.length = w.buffer_timestamps.map List.length)
    (hsp : w.buffer_spectral.map List.length = w.buffer_timestamps.map List.length) :
    (bufferRows w).length = w.buffer_timestamps.flatten.length :=
  zipRows_length _ _ _ (buffer_ts_scat_len hsc) (buffer_ts_spec_len hsp)

theorem bufferRows_map_ts {w : ChunkWriter}
    (hsc : w.buffer_scattering.map List.length = w.buffer_timestamps.map List.length)
    (hsp : w.buffer_spectral.map List.length = w.buffer_timestamps.map List.length) :
    (bufferRows w).map Row.ts_0 = w.buffer_timestamps.flatten :=
  zipRows_map_ts _ _ _ (buffer_ts_scat_len hsc) (buffer_ts_spec_len hsp)

theorem bufferRows_bufferPacket (w : ChunkWriter) (p : Packet)
    (hsc : w.buffer_scattering.map List.length = w.buffer_timestamps.map List.length)
    (hsp : w.buffer_spectral.map List.length = w.buffer_timestamps.map List.length) :
    bufferRows (bufferPacket w p) = bufferRows w ++ packetRows p := by
  unfold bufferRows bufferPacket packetRows
  simp only [List.flatten_append, List.flatten_cons, List.flatten_nil, List.append_nil,
    List.map_append]
  exact zipRows_append _ _ _ _ _ _ (buffer_ts_scat_len hsc) (buffer_ts_spec_len hsp)

/-- The `flush` equation on a nonzero counter, with all lets resolved. -/
theorem flush_eq_of_ne (w : ChunkWriter) (s : Storage) (hc : ¬ w.particle_counter = 0) :
    flush w s =
      (initWriter,
        { files := (w.buffer_timestamps.flatten.headD 0, bufferRows w) :: s.files
          indexFile := some
            { header := match s.indexFile with
                | none => indexCsvHeader
                | some f => f.header
              rows := (match s.indexFile with
                | none => ([] : List IndexEntry)
                | some f => f.rows) ++
                [{ filename := w.buffer_timestamps.flatten.headD 0
                   min_ts := tsMin w.buffer_timestamps.flatten
                   max_ts := tsMax w.buffer_timestamps.flatten }] } }) := by
  obtain ⟨fls, idxf⟩ := s
  cases idxf <;> (unfold flush; rw [if_neg hc]) <;> rfl

theorem bufferRows_initWriter : bufferRows initWriter = [] := rfl

theorem inv_flush {ps : List Packet} {chunks : List (List Row)} {w : ChunkWriter} {s : Storage}
    (h : Inv ps chunks w s) :
    ∃ chunks2, Inv ps chunks2 (flush w s).1 (flush w s).2 := by
  by_cases hc : w.particle_counter = 0
  · refine ⟨chunks, ?_⟩
    have heq : flush w s = (w, s) := by unfold flush; rw [if_pos hc]
    rw [heq]
    exact h
  · refine ⟨chunks ++ [bufferRows w], ?_⟩
    have hlen : (bufferRows w).length = w.particle_counter := by
      rw [bufferRows_length h.inv_scat_len h.inv_spec_len, List.length_flatten, h.inv_counter]
    have hbne : bufferRows w ≠ [] := by
      intro hnil
      exact hc (by rw [← hlen, hnil]; rfl)
    have hmap : (bufferRows w).map Row.ts_0 = w.buffer_timestamps.flatten :=
      bufferRows_map_ts h.inv_scat_len h.inv_spec_len
    have hname : chunkFileName (bufferRows w) = w.buffer_timestamps.flatten.headD 0 := by
      unfold chunkFileName; rw [hmap]
    have hentry :
        ({ filename := w.buffer_timestamps.flatten.headD 0
           min_ts := tsMin w.buffer_timestamps.flatten
           max_ts := tsMax w.buffer_timestamps.flatten } : IndexEntry) =
          chunkEntry (bufferRows w) := by
      unfold chunkEntry
      rw [hmap, hname]
    rw [flush_eq_of_ne w s hc]
    refine { inv_index := ?_, inv_files := ?_, inv_ne := ?_, inv_split := ?_,
             inv_scat_len := rfl, inv_spec_len := rfl, inv_counter := rfl }
    · rw [if_neg (by simp)]
      by_cases hch : chunks = []
      · subst hch
        have hidx : s.indexFile = none := by simpa using h.inv_index
        simp [hidx]
        rw [← List.headD_eq_head?_getD]
        exact hentry
      · have hidx : s.indexFile =
            some { header := indexCsvHeader, rows := chunks.map chunkEntry } := by
          rw [h.inv_index, if_neg hch]
        simp [hidx]
        rw [← List.headD_eq_head?_getD]
        exact hentry
    · simp [h.inv_files, hname]
    · intro c hcmem
      rcases List.mem_append.mp hcmem with hold | hnew
      · exact h.inv_ne c hold
      · rw [List.mem_singleton.mp hnew]
        exact hbne
    · rw [bufferRows_initWriter, List.append_nil, List.flatten_append, ← h.inv_split]
      simp

theorem inv_add {ps : List Packet} {chunks : List (List Row)} {w : ChunkWriter} {s : Storage}
    (h : Inv ps chunks w s) (p : Packet) (hp : WellShaped p) :
    ∃ chunks2, Inv (ps ++ [p]) chunks2 (add_packet w s p).1 (add_packet w s p).2 := by
  have hbuf : Inv (ps ++ [p]) chunks (bufferPacket w p) s := by
    refine { inv_index := h.inv_index, inv_files := h.inv_files, inv_ne := h.inv_ne,
             inv_split := ?_, inv_scat_len := ?_, inv_spec_len := ?_, inv_counter := ?_ }
    · rw [bufferRows_bufferPacket w p h.inv_scat_len h.inv_spec_len, ingestedRows_append,
        ← h.inv_split]
      simp [ingestedRows]
    · simp [bufferPacket, h.inv_scat_len, hp.1]
    · simp [bufferPacket, h.inv_spec_len, hp.2]
    · simp [bufferPacket, h.inv_counter, particleCount, hp.1]
  have hstep : add_packet w s p =
      if 200000 ≤ (bufferPacket w p).particle_counter then flush (bufferPacket w p) s
      else (bufferPacket w p, s) := rfl
  by_cases hth : 200000 ≤ (bufferPacket w p).particle_counter
  · rw [hstep, if_pos hth]
    exact inv_flush hbuf
  · rw [hstep, if_neg hth]
    exact ⟨chunks, hbuf⟩

theorem inv_addPackets : ∀ (qs ps : List Packet) (chunks : List (List Row))
    (w : ChunkWriter) (s : Storage),
    Inv ps chunks w s → (∀ p ∈ qs, WellShaped p) →
    ∃ chunks2, Inv (ps ++ qs) chunks2 (addPackets w s qs).1 (addPackets w s qs).2 := by
  intro qs
  induction qs with
  | nil =>
    intro ps chunks w s h _
    exact ⟨chunks, by simpa [addPackets] using h⟩
  | cons q qs ih =>
    intro ps chunks w s h hws
    obtain ⟨chunks2, h2⟩ := inv_add h q (hws q (List.mem_cons_self _ _))
    have hrw : addPackets w s (q :: qs) =
        addPackets (add_packet w s q).1 (add_packet w s q).2 qs := by
      simp [addPackets]
    rw [hrw]
    obtain ⟨chunks3, h3⟩ :=
      ih (ps ++ [q]) chunks2 _ _ h2 (fun p hp => hws p (List.mem_cons_of_mem _ hp))
    exact ⟨chunks3, by simpa [List.append_assoc] using h3⟩

theorem inv_runFrom : ∀ (ops : List Op) (ps : List Packet) (chunks : List (List Row))
    (w : ChunkWriter) (s : Storage),
    Inv ps chunks w s → (∀ p ∈ opPackets ops, WellShaped p) →
    ∃ chunks2,
      Inv (ps ++ opPackets ops) chunks2 (runFrom (w, s) ops).1 (runFrom (w, s) ops).2 := by
  intro ops
  induction ops with
  | nil =>
    intro ps chunks w s h _
    exact ⟨chunks, by simpa [runFrom, opPackets] using h⟩
  | cons op ops ih =>
    intro ps chunks w s h hws
    cases op with
    | add p =>
      obtain ⟨chunks2, h2⟩ := inv_add h p (hws p (by simp [opPackets]))
      have hrw : runFrom (w, s) (Op.add p :: ops) = runFrom (add_packet w s p) ops := rfl
      rw [hrw]
      obtain ⟨chunks3, h3⟩ :=
        ih (ps ++ [p]) chunks2 _ _ h2 (fun q hq => hws q (by simp [opPackets, hq]))
      refine ⟨chunks3, ?_⟩
      have hpk : opPackets (Op.add p :: ops) = p :: opPackets ops := rfl
      rw [hpk]
      simpa [List.append_assoc] using h3
    | flush =>
      obtain ⟨chunks2, h2⟩ := inv_flush h
      have hrw : runFrom (w, s) (Op.flush :: ops) = runFrom (flush w s) ops := rfl
      rw [hrw]
      have hpk : opPackets (Op.flush :: ops) = opPackets ops := rfl
      rw [hpk]
      exact ih ps chunks2 _ _ h2 hws

theorem init_inv : Inv [] [] initWriter initStorage := by
  refine { inv_index := rfl, inv_files := rfl, inv_ne := ?_, inv_split := rfl,
           inv_scat_len := rfl, inv_spec_len := rfl, inv_counter := rfl }
  intro c hc
  exact absurd hc (List.not_mem_nil c)

theorem run_inv (ops : List Op) (hws : ∀ p ∈ opPackets ops, WellShaped p) :
    ∃ chunks, Inv (opPackets ops) chunks (run ops).1 (run ops).2 := by
  obtain ⟨chunks, h⟩ := inv_runFrom ops [] [] initWriter initStorage init_inv hws
  exact ⟨chunks, by simpa using h⟩

/-! ### Query-path lemmas -/

theorem overlapMask_eq_true {e : IndexEntry} {lo hi : ℚ} :
    overlapMask e lo hi = true ↔ (lo ≤ e.max_ts ∧ e.min_ts ≤ hi) := by
  simp [overlapMask]

theorem rowMask_eq_true {r : Row} {lo hi : ℚ} :
    rowMask r lo hi = true ↔ (lo ≤ r.ts_0 ∧ r.ts_0 ≤ hi) := by
  simp [rowMask]

/-- `cmd_read` on a state whose index no entry overlaps the window: the normal
"no data found" outcome, no chunk opened. -/
theorem cmd_read_of_no_overlap (s : Storage) (idx : IndexCsv) (lo hi : ℚ)
    (hidx : s.indexFile = some idx)
    (hov : ∀ e ∈ idx.rows, ¬ (lo ≤ e.max_ts ∧ e.min_ts ≤ hi)) :
    cmd_read s lo hi = Except.ok ([], none) := by
  have hfil : idx.rows.filter (fun e => overlapMask e lo hi) = [] := by
    rw [List.filter_eq_nil_iff]
    intro e he
    rw [overlapMask_eq_true]
    exact hov e he
  have hstep : cmd_read s lo hi =
      (match readLoop s.files (idx.rows.filter (fun e => overlapMask e lo hi)) lo hi with
       | Except.error err => Except.error err
       | Except.ok (opened, results) =>
         if results.isEmpty then Except.ok (opened, none)
         else Except.ok (opened, some results.flatten)) := by
    unfold cmd_read
    rw [hidx]
  rw [hstep, hfil]
  rfl

/-- The general shape of a successful `cmd_read`: the opened files are exactly
the pruned candidates' names, and the result concatenates the per-candidate
filtered frames in index order. -/
theorem cmd_read_eq (s : Storage) (idx : IndexCsv) (lo hi : ℚ)
    (hidx : s.indexFile = some idx)
    (hfiles : ∀ e ∈ idx.rows.filter (fun e => overlapMask e lo hi),
      (lookupFile s.files e.filename).isSome) :
    cmd_read s lo hi = Except.ok
      ((idx.rows.filter (fun e => overlapMask e lo hi)).map IndexEntry.filename,
       if (idx.rows.filter (fun e => overlapMask e lo hi)).isEmpty then none
       else some (((idx.rows.filter (fun e => overlapMask e lo hi)).map
         (fun e => ((lookupFile s.files e.filename).getD []).filter
           (fun r => rowMask r lo hi))).flatten)) := by
  have hstep : cmd_read s lo hi =
      (match readLoop s.files (idx.rows.filter (fun e => overlapMask e lo hi)) lo hi with
       | Except.error err => Except.error err
       | Except.ok (opened, results) =>
         if results.isEmpty then Except.ok (opened, none)
         else Except.ok (opened, some results.flatten)) := by
    unfold cmd_read
    rw [hidx]
  rw [hstep, readLoop_ok s.files lo hi _ hfiles]
  cases hfe : idx.rows.filter (fun e => overlapMask e lo hi) with
  | nil => rfl
  | cons e rest => rfl

/-- A query whose window covers every ingested timestamp, issued against a
state satisfying the invariant with an empty buffer and collision-free chunk
filenames, returns all ingested rows in order. -/
theorem query_full_span {ps : List Packet} {chunks : List (List Row)} {w : ChunkWriter}
    {s : Storage} (h : Inv ps chunks w s) (hbuf : bufferRows w = [])
    (hne : ingestedRows ps ≠ []) (hnd : (s.files.map Prod.fst).Nodup) (lo hi : ℚ)
    (hlo : ∀ r ∈ ingestedRows ps, lo ≤ r.ts_0) (hhi : ∀ r ∈ ingestedRows ps, r.ts_0 ≤ hi) :
    cmd_read s lo hi = Except.ok (chunks.map chunkFileName, some (ingestedRows ps)) := by
  have hsplit : chunks.flatten = ingestedRows ps := by
    rw [← h.inv_split, hbuf, List.append_nil]
  have hch : chunks ≠ [] := by
    intro hnil
    rw [hnil] at hsplit
    exact hne hsplit.symm
  have hidx : s.indexFile = some { header := indexCsvHeader, rows := chunks.map chunkEntry } := by
    rw [h.inv_index, if_neg hch]
  have hmemrow : ∀ c ∈ chunks, ∀ r ∈ c, r ∈ ingestedRows ps := by
    intro c hc r hr
    rw [← hsplit]
    exact List.mem_flatten.mpr ⟨c, hc, hr⟩
  have hlook : ∀ c ∈ chunks, lookupFile s.files (chunkFileName c) = some c := by
    intro c hc
    apply lookupFile_of_nodup _ _ _ hnd
    rw [h.inv_files]
    exact List.mem_reverse.mpr (List.mem_map_of_mem _ hc)
  have hfil : (chunks.map chunkEntry).filter (fun e => overlapMask e lo hi) =
      chunks.map chunkEntry := by
    rw [List.filter_eq_self]
    intro e he
    obtain ⟨c, hc, rfl⟩ := List.mem_map.mp he
    have hcne : c ≠ [] := h.inv_ne c hc
    have hmapne : c.map Row.ts_0 ≠ [] := by simpa using hcne
    rw [overlapMask_eq_true]
    constructor
    · obtain ⟨r, hr, hrts⟩ := List.mem_map.mp (tsMax_mem _ hmapne)
      rw [chunkEntry, ← hrts]
      exact hlo r (hmemrow c hc r hr)
    · obtain ⟨r, hr, hrts⟩ := List.mem_map.mp (tsMin_mem _ hmapne)
      rw [chunkEntry, ← hrts]
      exact hhi r (hmemrow c hc r hr)
  have hfiles : ∀ e ∈ (({ header := indexCsvHeader, rows := chunks.map chunkEntry } :
      IndexCsv)).rows.filter (fun e => overlapMask e lo hi),
      (lookupFile s.files e.filename).isSome := by
    intro e he
    rw [hfil] at he
    obtain ⟨c, hc, rfl⟩ := List.mem_map.mp he
    rw [show (chunkEntry c).filename = chunkFileName c from rfl, hlook c hc]
    rfl
  rw [cmd_read_eq s _ lo hi hidx hfiles]
  have hres : (chunks.map chunkEntry).map
      (fun e => ((lookupFile s.files e.filename).getD []).filter (fun r => rowMask r lo hi)) =
      chunks := by
    rw [List.map_map]
    have : ∀ c ∈ chunks,
        ((lookupFile s.files (chunkEntry c).filename).getD []).filter
          (fun r => rowMask r lo hi) = c := by
      intro c hc
      rw [show (chunkEntry c).filename = chunkFileName c from rfl, hlook c hc]
      show c.filter (fun r => rowMask r lo hi) = c
      rw [List.filter_eq_self]
      intro r hr
      rw [rowMask_eq_true]
      exact ⟨hlo r (hmemrow c hc r hr), hhi r (hmemrow c hc r hr)⟩
    calc chunks.map (fun c =>
          ((lookupFile s.files (chunkEntry c).filename).getD []).filter
            (fun r => rowMask r lo hi)) = chunks.map id := List.map_congr_left this
      _ = chunks := List.map_id chunks
  have hopened : (chunks.map chunkEntry).map IndexEntry.filename = chunks.map chunkFileName := by
    rw [List.map_map]
    rfl
  have hisEmpty : (chunks.map chunkEntry).isEmpty = false := by
    cases hcm : chunks.map chunkEntry with
    | nil => exact absurd (List.map_eq_nil_iff.mp hcm) hch
    | cons a l => rfl
  rw [hfil, hisEmpty, hopened, hres, hsplit]
  rfl

/-! ### Counter and run bookkeeping -/

theorem flush_fst_counter (w : ChunkWriter) (s : Storage) :
    ((flush w s).1).particle_counter = 0 := by
  by_cases hc : w.particle_counter = 0
  · have heq : flush w s = (w, s) := by unfold flush; rw [if_pos hc]
    rw [heq]
    exact hc
  · rw [flush_eq_of_ne w s hc]
    rfl

theorem add_packet_eq (w : ChunkWriter) (s : Storage) (p : Packet) :
    add_packet w s p =
      if 200000 ≤ (bufferPacket w p).particle_counter then flush (bufferPacket w p) s
      else (bufferPacket w p, s) := rfl

theorem add_packet_counter_lt (w : ChunkWriter) (s : Storage) (p : Packet) :
    (add_packet w s p).1.particle_counter < 200000 := by
  rw [add_packet_eq]
  by_cases hth : 200000 ≤ (bufferPacket w p).particle_counter
  · rw [if_pos hth, flush_fst_counter]
    omega
  · rw [if_neg hth]
    show (bufferPacket w p).particle_counter < 200000
    omega

theorem bufferRows_eq_nil_of_counter {ps : List Packet} {chunks : List (List Row)}
    {w : ChunkWriter} {s : Storage} (h : Inv ps chunks w s)
    (hc : w.particle_counter = 0) : bufferRows w = [] := by
  have hl := bufferRows_length h.inv_scat_len h.inv_spec_len
  have hz : (bufferRows w).length = 0 := by
    rw [hl, List.length_flatten, ← h.inv_counter, hc]
  exact List.length_eq_zero.mp hz

theorem opPackets_map_add (ps : List Packet) : opPackets (ps.map Op.add ++ [Op.flush]) = ps := by
  induction ps with
  | nil => rfl
  | cons p ps ih =>
    simp only [List.map_cons, List.cons_append]
    rw [show opPackets (Op.add p :: (ps.map Op.add ++ [Op.flush])) =
      p :: opPackets (ps.map Op.add ++ [Op.flush]) from rfl, ih]

theorem ingest_counter (ps : List Packet) : ((ingest ps).1).particle_counter = 0 := by
  show ((ps.map Op.add ++ [Op.flush]).foldl step (initWriter, initStorage)).1.particle_counter = 0
  rw [List.foldl_append, List.foldl_cons, List.foldl_nil]
  exact flush_fst_counter _ _

theorem addPackets_no_flush : ∀ (qs : List Packet) (w : ChunkWriter) (s : Storage),
    w.particle_counter + (qs.map particleCount).sum < 200000 →
    (addPackets w s qs).1.particle_counter = w.particle_counter + (qs.map particleCount).sum ∧
    (addPackets w s qs).2 = s := by
  intro qs
  induction qs with
  | nil =>
    intro w s _
    exact ⟨by simp [addPackets], rfl⟩
  | cons q qs ih =>
    intro w s h
    have hsum : (List.map particleCount (q :: qs)).sum =
        particleCount q + (qs.map particleCount).sum := by simp
    rw [hsum] at h
    have hlt : ¬ 200000 ≤ (bufferPacket w q).particle_counter := by
      show ¬ 200000 ≤ w.particle_counter + particleCount q
      omega
    have hstep : add_packet w s q = (bufferPacket w q, s) := by
      rw [add_packet_eq, if_neg hlt]
    have haddrw : addPackets w s (q :: qs) = addPackets (bufferPacket w q) s qs := by
      unfold addPackets
      rw [List.foldl_cons]
      exact congrArg (fun z => List.foldl (fun ws p => add_packet ws.1 ws.2 p) z qs) hstep
    obtain ⟨hc, hs⟩ := ih (bufferPacket w q) s
      (by show w.particle_counter + particleCount q + _ < _; omega)
    rw [haddrw]
    refine ⟨?_, hs⟩
    rw [hc, hsum]
    show w.particle_counter + particleCount q + _ = _
    omega

theorem flush_counter_sum (w : ChunkWriter) (s : Storage)
    (h : w.particle_counter = (w.buffer_scattering.map List.length).sum) :
    ((flush w s).1).particle_counter =
      (((flush w s).1).buffer_scattering.map List.length).sum := by
  by_cases hc : w.particle_counter = 0
  · have heq : flush w s = (w, s) := by unfold flush; rw [if_pos hc]
    rw [heq]
    exact h
  · rw [flush_eq_of_ne w s hc]
    rfl

theorem add_packet_counter_sum (w : ChunkWriter) (s : Storage) (p : Packet)
    (h : w.particle_counter = (w.buffer_scattering.map List.length).sum) :
    ((add_packet w s p).1).particle_counter =
      (((add_packet w s p).1).buffer_scattering.map List.length).sum := by
  have hbuf : (bufferPacket w p).particle_counter =
      ((bufferPacket w p).buffer_scattering.map List.length).sum := by
    show w.particle_counter + particleCount p =
      ((w.buffer_scattering ++ [p.scattering]).map List.length).sum
    simp [h, particleCount]
  rw [add_packet_eq]
  by_cases hth : 200000 ≤ (bufferPacket w p).particle_counter
  · rw [if_pos hth]
    exact flush_counter_sum _ _ hbuf
  · rw [if_neg hth]
    exact hbuf

theorem step_counter_sum (ws : ChunkWriter × Storage) (op : Op)
    (h : ws.1.particle_counter = (ws.1.buffer_scattering.map List.length).sum) :
    (step ws op).1.particle_counter = ((step ws op).1.buffer_scattering.map List.length).sum := by
  cases op with
  | add p => exact add_packet_counter_sum ws.1 ws.2 p h
  | flush => exact flush_counter_sum ws.1 ws.2 h

theorem runFrom_counter_sum : ∀ (ops : List Op) (ws : ChunkWriter × Storage),
    ws.1.particle_counter = (ws.1.buffer_scattering.map List.length).sum →
    (runFrom ws ops).1.particle_counter =
      ((runFrom ws ops).1.buffer_scattering.map List.length).sum := by
  intro ops
  induction ops with
  | nil => intro ws h; exact h
  | cons op ops ih =>
    intro ws h
    exact ih (step ws op) (step_counter_sum ws op h)

theorem filter_replicate_of_pos {α : Type} (p : α → Bool) (n : Nat) (a : α) (h : p a = true) :
    (List.replicate n a).filter p = List.replicate n a := by
  induction n with
  | zero => rfl
  | succ n ih => rw [List.replicate_succ, List.filter_cons_of_pos h, ih]

theorem headD_replicate (n : Nat) (a d : ℚ) (h : n ≠ 0) :
    (List.replicate n a).headD d = a := by
  cases n with
  | zero => exact absurd rfl h
  | succ n => rfl

/-! ### Concrete scenarios -/

/-- Two particles at timestamps 5 and 10. -/
def smallP1 : Packet := ⟨[5, 10], [[[1]], [[2]]], [[[1]], [[2]]]⟩

/-- Two particles at timestamps 5 and 3: its leading timestamp collides with
`smallP1`'s. -/
def smallP2 : Packet := ⟨[5, 3], [[[3]], [[4]]], [[[3]], [[4]]]⟩

/-- A run with two explicit flushes whose chunks share the leading timestamp 5. -/
def collideOps : List Op := [Op.add smallP1, Op.flush, Op.add smallP2, Op.flush]

/-- A writer one particle short of the flush threshold. -/
def bigWriter : ChunkWriter := ⟨[[5]], [[[[1]]]], [[[[1]]]], 199999⟩

def bigRowA : Row := ⟨5, [1], [1]⟩

def bigRowB : Row := ⟨5, [2], [2]⟩

/-- 200000 particles, all at timestamp 5, matrix value 1. -/
def bigP1 : Packet :=
  ⟨List.replicate 200000 5, List.replicate 200000 [[1]], List.replicate 200000 [[1]]⟩

/-- 200000 particles, all at timestamp 5, matrix value 2. -/
def bigP2 : Packet :=
  ⟨List.replicate 200000 5, List.replicate 200000 [[2]], List.replicate 200000 [[2]]⟩

def bigS1 : Storage :=
  { files := [(5, List.replicate 200000 bigRowA)]
    indexFile := some { header := indexCsvHeader, rows := [⟨5, 5, 5⟩] } }

def bigS2 : Storage :=
  { files := [(5, List.replicate 200000 bigRowB), (5, List.replicate 200000 bigRowA)]
    indexFile := some { header := indexCsvHeader, rows := [⟨5, 5, 5⟩, ⟨5, 5, 5⟩] } }

/-- `add_packet` on a fresh buffer with a threshold-sized constant packet:
one synchronous flush producing one constant chunk. -/
theorem add_packet_replicate (s : Storage) (t : ℚ) (a b : List (List Int)) (n : Nat)
    (hn : 200000 ≤ n) :
    add_packet initWriter s ⟨List.replicate n t, List.replicate n a, List.replicate n b⟩ =
      (initWriter,
        { files := (t, List.replicate n ⟨t, a.flatten, b.flatten⟩) :: s.files
          indexFile := some
            { header := match s.indexFile with
                | none => indexCsvHeader
                | some f => f.header
              rows := (match s.indexFile with
                | none => ([] : List IndexEntry)
                | some f => f.rows) ++ [⟨t, t, t⟩] } }) := by
  have hn0 : n ≠ 0 := by omega
  have hcnt : (bufferPacket initWriter
      ⟨List.replicate n t, List.replicate n a, List.replicate n b⟩).particle_counter = n := by
    show 0 + particleCount ⟨List.replicate n t, List.replicate n a, List.replicate n b⟩ = n
    simp [particleCount]
  have hth : 200000 ≤ (bufferPacket initWriter
      ⟨List.replicate n t, List.replicate n a, List.replicate n b⟩).particle_counter := by
    rw [hcnt]; exact hn
  have hne : ¬ (bufferPacket initWriter
      ⟨List.replicate n t, List.replicate n a, List.replicate n b⟩).particle_counter = 0 := by
    rw [hcnt]; exact hn0
  have hts : (bufferPacket initWriter
      ⟨List.replicate n t, List.replicate n a, List.replicate n b⟩).buffer_timestamps.flatten =
      List.replicate n t := by
    show ([] ++ [List.replicate n t]).flatten = _
    simp
  have hrows : bufferRows (bufferPacket initWriter
      ⟨List.replicate n t, List.replicate n a, List.replicate n b⟩) =
      List.replicate n (⟨t, a.flatten, b.flatten⟩ : Row) := by
    unfold bufferRows
    rw [hts]
    have hsc : (bufferPacket initWriter
        ⟨List.replicate n t, List.replicate n a, List.replicate n b⟩).buffer_scattering.flatten.map
          List.flatten = List.replicate n a.flatten := by
      show (([] ++ [List.replicate n a]).flatten).map List.flatten = _
      simp [List.map_replicate]
    have hsp : (bufferPacket initWriter
        ⟨List.replicate n t, List.replicate n a, List.replicate n b⟩).buffer_spectral.flatten.map
          List.flatten = List.replicate n b.flatten := by
      show (([] ++ [List.replicate n b]).flatten).map List.flatten = _
      simp [List.map_replicate]
    rw [hsc, hsp, zipRows_replicate]
  rw [add_packet_eq, if_pos hth, flush_eq_of_ne _ _ hne, hrows, hts,
    headD_replicate n t 0 hn0, tsMin_replicate n t hn0, tsMax_replicate n t hn0]

theorem ingest_eq_steps (p q : Packet) :
    ingest [p, q] = step (step (step (initWriter, initStorage) (Op.add p)) (Op.add q)) Op.flush :=
  rfl

theorem ingest_big_eq : ingest [bigP1, bigP2] = (initWriter, bigS2) := by
  have e1 : add_packet initWriter initStorage bigP1 = (initWriter, bigS1) := by
    rw [show bigP1 =
        ⟨List.replicate 200000 5, List.replicate 200000 [[1]], List.replicate 200000 [[1]]⟩
        from rfl,
      add_packet_replicate initStorage 5 [[1]] [[1]] 200000 (le_refl _)]
    rfl
  have e2 : add_packet initWriter bigS1 bigP2 = (initWriter, bigS2) := by
    rw [show bigP2 =
        ⟨List.replicate 200000 5, List.replicate 200000 [[2]], List.replicate 200000 [[2]]⟩
        from rfl,
      add_packet_replicate bigS1 5 [[2]] [[2]] 200000 (le_refl _)]
    rfl
  have e3 : flush initWriter bigS2 = (initWriter, bigS2) := by
    unfold flush
    rw [if_pos (show initWriter.particle_counter = 0 from rfl)]
  rw [ingest_eq_steps bigP1 bigP2,
    show step (initWriter, initStorage) (Op.add bigP1) =
      add_packet initWriter initStorage bigP1 from rfl, e1,
    show step (initWriter, bigS1) (Op.add bigP2) = add_packet initWriter bigS1 bigP2 from rfl, e2,
    show step (initWriter, bigS2) Op.flush = flush initWriter bigS2 from rfl, e3]

theorem ingestedRows_big :
    ingestedRows [bigP1, bigP2] =
      List.replicate 200000 bigRowA ++ List.replicate 200000 bigRowB := by
  have hA : packetRows bigP1 = List.replicate 200000 bigRowA := by
    unfold packetRows
    rw [show bigP1.timestamps = List.replicate 200000 5 from rfl,
      show bigP1.scattering = List.replicate 200000 [[1]] from rfl,
      show bigP1.spectral = List.replicate 200000 [[1]] from rfl,
      List.map_replicate, zipRows_replicate]
    rfl
  have hB : packetRows bigP2 = List.replicate 200000 bigRowB := by
    unfold packetRows
    rw [show bigP2.timestamps = List.replicate 200000 5 from rfl,
      show bigP2.scattering = List.replicate 200000 [[2]] from rfl,
      show bigP2.spectral = List.replicate 200000 [[2]] from rfl,
      List.map_replicate, zipRows_replicate]
    rfl
  unfold ingestedRows
  simp only [List.map_cons, List.map_nil, List.flatten_cons, List.flatten_nil, List.append_nil]
  rw [hA, hB]

/-! ### Claim theorems -/

/-- Claim C1, amended: for every sequence of shape-consistent records ingested
through `add_packet` followed by a final explicit `flush()`, a query over the
full time span covered by the ingested timestamps returns exactly the ingested
multiset of (timestamp, matrix_a row, matrix_b row) rows, irrespective of
where the chunk boundaries fell — provided no two flushed chunks share a
leading timestamp (equivalently, the persisted chunk filenames are pairwise
distinct; a collision overwrites a chunk file and breaks the round trip). -/
theorem claim1_round_trip (ps : List Packet) (lo hi : ℚ)
    (hws : ∀ p ∈ ps, WellShaped p)
    (hne : ingestedRows ps ≠ [])
    (hnd : (((ingest ps).2).files.map Prod.fst).Nodup)
    (hlo : ∀ r ∈ ingestedRows ps, lo ≤ r.ts_0)
    (hhi : ∀ r ∈ ingestedRows ps, r.ts_0 ≤ hi) :
    ∃ opened result,
      cmd_read (ingest ps).2 lo hi = Except.ok (opened, some result) ∧
      (result : Multiset Row) = (ingestedRows ps : Multiset Row) := by
  obtain ⟨chunks, h⟩ := run_inv (ps.map Op.add ++ [Op.flush])
    (by rw [opPackets_map_add]; exact hws)
  rw [opPackets_map_add] at h
  have hbuf : bufferRows (ingest ps).1 = [] :=
    bufferRows_eq_nil_of_counter h (ingest_counter ps)
  exact ⟨chunks.map chunkFileName, ingestedRows ps,
    query_full_span h hbuf hne hnd lo hi hlo hhi, rfl⟩

/-- Witness for C1 at one two-particle record, window [3, 12]. -/
theorem claim1_round_trip_witness :
    (∀ p ∈ [smallP1], WellShaped p) ∧ ingestedRows [smallP1] ≠ [] ∧
    (((ingest [smallP1]).2).files.map Prod.fst).Nodup ∧
    (∀ r ∈ ingestedRows [smallP1], 3 ≤ r.ts_0) ∧
    (∀ r ∈ ingestedRows [smallP1], r.ts_0 ≤ 12) ∧
    (∃ opened result,
      cmd_read (ingest [smallP1]).2 3 12 = Except.ok (opened, some result) ∧
      (result : Multiset Row) = (ingestedRows [smallP1] : Multiset Row)) :=
  ⟨by decide, by decide, by decide, by decide, by decide,
    claim1_round_trip [smallP1] 3 12 (by decide) (by decide) (by decide) (by decide) (by decide)⟩

/-- Claim C1 as stated is false on the code: two shape-consistent
200000-particle records sharing the timestamp 5, ingested through `add_packet`
with a final explicit `flush()`, each trigger a threshold flush; the second
chunk file overwrites the first, so the full-span query [5, 5] returns the
second chunk's rows twice and the first record's rows never. -/
theorem claim1_round_trip_cex :
    (∀ p ∈ [bigP1, bigP2], WellShaped p) ∧
    (∀ r ∈ ingestedRows [bigP1, bigP2], 5 ≤ r.ts_0 ∧ r.ts_0 ≤ 5) ∧
    cmd_read (ingest [bigP1, bigP2]).2 5 5 =
      Except.ok ([5, 5],
        some (List.replicate 200000 bigRowB ++ List.replicate 200000 bigRowB)) ∧
    ((List.replicate 200000 bigRowB ++ List.replicate 200000 bigRowB : List Row) : Multiset Row) ≠
      (ingestedRows [bigP1, bigP2] : Multiset Row) := by
  refine ⟨?_, ?_, ?_, ?_⟩
  · have hws1 : WellShaped bigP1 := by
      constructor
      · rw [show bigP1.timestamps = List.replicate 200000 5 from rfl,
          show bigP1.scattering = List.replicate 200000 [[1]] from rfl,
          List.length_replicate, List.length_replicate]
      · rw [show bigP1.timestamps = List.replicate 200000 5 from rfl,
          show bigP1.spectral = List.replicate 200000 [[1]] from rfl,
          List.length_replicate, List.length_replicate]
    have hws2 : WellShaped bigP2 := by
      constructor
      · rw [show bigP2.timestamps = List.replicate 200000 5 from rfl,
          show bigP2.scattering = List.replicate 200000 [[2]] from rfl,
          List.length_replicate, List.length_replicate]
      · rw [show bigP2.timestamps = List.replicate 200000 5 from rfl,
          show bigP2.spectral = List.replicate 200000 [[2]] from rfl,
          List.length_replicate, List.length_replicate]
    intro p hp
    rcases List.mem_cons.mp hp with h | h
    · rw [h]; exact hws1
    · rcases List.mem_cons.mp h with h2 | h2
      · rw [h2]; exact hws2
      · exact absurd h2 (List.not_mem_nil p)
  · intro r hr
    rw [ingestedRows_big] at hr
    rcases List.mem_append.mp hr with h | h <;> rw [List.eq_of_mem_replicate h] <;>
      exact ⟨le_refl _, le_refl _⟩
  · have hS : (ingest [bigP1, bigP2]).2 = bigS2 := congrArg Prod.snd ingest_big_eq
    rw [hS]
    have hidx : bigS2.indexFile =
        some { header := indexCsvHeader, rows := [⟨5, 5, 5⟩, ⟨5, 5, 5⟩] } := rfl
    have hfil : ([⟨5, 5, 5⟩, ⟨5, 5, 5⟩] : List IndexEntry).filter
        (fun e => overlapMask e 5 5) = [⟨5, 5, 5⟩, ⟨5, 5, 5⟩] := rfl
    have hfiles : ∀ e ∈ ([⟨5, 5, 5⟩, ⟨5, 5, 5⟩] : List IndexEntry).filter
        (fun e => overlapMask e 5 5), (lookupFile bigS2.files e.filename).isSome := by decide
    rw [cmd_read_eq bigS2 _ 5 5 hidx hfiles, hfil,
      if_neg (by decide : ¬ (([⟨5, 5, 5⟩, ⟨5, 5, 5⟩] : List IndexEntry).isEmpty = true))]
    have hlook2 : (lookupFile bigS2.files
        (({ filename := 5, min_ts := 5, max_ts := 5 } : IndexEntry)).filename).getD [] =
        List.replicate 200000 bigRowB := rfl
    have hmask : rowMask bigRowB 5 5 = true := rfl
    simp only [List.map_cons, List.map_nil]
    rw [hlook2, filter_replicate_of_pos _ 200000 bigRowB hmask]
    simp only [List.flatten_cons, List.flatten_nil, List.append_nil]
  · intro heq
    have h2 : bigRowA ∈ ((ingestedRows [bigP1, bigP2] : List Row) : Multiset Row) := by
      rw [ingestedRows_big]
      exact Multiset.mem_coe.mpr (List.mem_append.mpr (Or.inl
        (List.mem_replicate.mpr ⟨by norm_num, rfl⟩)))
    rw [← heq] at h2
    rcases List.mem_append.mp (Multiset.mem_coe.mp h2) with h | h <;>
      exact absurd (List.eq_of_mem_replicate h) (by decide)

/-- Claim C2: for every persisted state and window with `start_ts ≤ stop_ts`,
`cmd_read` selects exactly the index entries with
`max_ts ≥ start_ts ∧ min_ts ≤ stop_ts`, opens only the selected chunks,
includes a row of a selected chunk iff its `ts_0` lies in the inclusive
window, and concatenates the matching row-sets in index order. -/
theorem claim2_range_correctness (s : Storage) (idx : IndexCsv) (start_ts stop_ts : ℚ)
    (hidx : s.indexFile = some idx)
    (hrange : start_ts ≤ stop_ts)
    (hfiles : ∀ e ∈ idx.rows, (lookupFile s.files e.filename).isSome) :
    ∃ opened result,
      cmd_read s start_ts stop_ts = Except.ok (opened, result) ∧
      (∀ e : IndexEntry,
        e ∈ idx.rows.filter (fun e => overlapMask e start_ts stop_ts) ↔
          e ∈ idx.rows ∧ start_ts ≤ e.max_ts ∧ e.min_ts ≤ stop_ts) ∧
      opened =
        (idx.rows.filter (fun e => overlapMask e start_ts stop_ts)).map IndexEntry.filename ∧
      result.getD [] =
        ((idx.rows.filter (fun e => overlapMask e start_ts stop_ts)).map
          (fun e => ((lookupFile s.files e.filename).getD []).filter
            (fun r => rowMask r start_ts stop_ts))).flatten ∧
      ∀ e ∈ idx.rows.filter (fun e => overlapMask e start_ts stop_ts), ∀ r : Row,
        r ∈ ((lookupFile s.files e.filename).getD []).filter
            (fun r => rowMask r start_ts stop_ts) ↔
          r ∈ (lookupFile s.files e.filename).getD [] ∧
            start_ts ≤ r.ts_0 ∧ r.ts_0 ≤ stop_ts := by
  have hf2 : ∀ e ∈ idx.rows.filter (fun e => overlapMask e start_ts stop_ts),
      (lookupFile s.files e.filename).isSome :=
    fun e he => hfiles e (List.mem_of_mem_filter he)
  rw [cmd_read_eq s idx start_ts stop_ts hidx hf2]
  refine ⟨_, _, rfl, ?_, rfl, ?_, ?_⟩
  · intro e
    rw [List.mem_filter, overlapMask_eq_true]
  · by_cases hemp : (idx.rows.filter (fun e => overlapMask e start_ts stop_ts)).isEmpty = true
    · rw [if_pos hemp, List.isEmpty_iff.mp hemp]
      simp
    · rw [if_neg hemp]
      rfl
  · intro e _ r
    rw [List.mem_filter, rowMask_eq_true]

/-- Witness for C2 on the storage left by one ingested record, window [0, 6]. -/
theorem claim2_range_correctness_witness :
    ((ingest [smallP1]).2.indexFile =
      some { header := indexCsvHeader, rows := [⟨5, 5, 10⟩] }) ∧
    ((0 : ℚ) ≤ 6) ∧
    (∀ e ∈ ({ header := indexCsvHeader, rows := [⟨5, 5, 10⟩] } : IndexCsv).rows,
      (lookupFile (ingest [smallP1]).2.files e.filename).isSome) ∧
    (∃ opened result,
      cmd_read (ingest [smallP1]).2 0 6 = Except.ok (opened, result) ∧
      (∀ e : IndexEntry,
        e ∈ (({ header := indexCsvHeader, rows := [⟨5, 5, 10⟩] } : IndexCsv)).rows.filter
            (fun e => overlapMask e 0 6) ↔
          e ∈ (({ header := indexCsvHeader, rows := [⟨5, 5, 10⟩] } : IndexCsv)).rows ∧
            (0 : ℚ) ≤ e.max_ts ∧ e.min_ts ≤ 6) ∧
      opened = ((({ header := indexCsvHeader, rows := [⟨5, 5, 10⟩] } : IndexCsv)).rows.filter
          (fun e => overlapMask e 0 6)).map IndexEntry.filename ∧
      result.getD [] =
        (((({ header := indexCsvHeader, rows := [⟨5, 5, 10⟩] } : IndexCsv)).rows.filter
            (fun e => overlapMask e 0 6)).map
          (fun e => ((lookupFile (ingest [smallP1]).2.files e.filename).getD []).filter
            (fun r => rowMask r 0 6))).flatten ∧
      ∀ e ∈ (({ header := indexCsvHeader, rows := [⟨5, 5, 10⟩] } : IndexCsv)).rows.filter
          (fun e => overlapMask e 0 6), ∀ r : Row,
        r ∈ ((lookupFile (ingest [smallP1]).2.files e.filename).getD []).filter
            (fun r => rowMask r 0 6) ↔
          r ∈ (lookupFile (ingest [smallP1]).2.files e.filename).getD [] ∧
            (0 : ℚ) ≤ r.ts_0 ∧ r.ts_0 ≤ 6) :=
  ⟨by decide, by decide, by decide,
    claim2_range_correctness (ingest [smallP1]).2 _ 0 6 (by decide) (by decide) (by decide)⟩

/-- A record whose matrix leading dimension (2) disagrees with its timestamp
length (1). -/
def badPacket : Packet := ⟨[5], [[[1]], [[2]]], [[[1]], [[2]]]⟩

/-- Claim C3 is right about the intent but the code lacks the check:
`add_packet` performs no shape validation, so the mismatched record is
buffered anyway and the particle counter is incremented by the scattering
leading dimension — the buffer is not unchanged and no error is raised. -/
theorem claim3_shape_mismatch_buffered :
    ¬ WellShaped badPacket ∧
    (add_packet initWriter initStorage badPacket).1 =
      { buffer_timestamps := [[5]], buffer_scattering := [[[[1]], [[2]]]],
        buffer_spectral := [[[[1]], [[2]]]], particle_counter := 2 } ∧
    (add_packet initWriter initStorage badPacket).1 ≠ initWriter := by decide

/-- Claim C4: whenever the counter reaches or exceeds 200000 during an
`add_packet` call, a flush is triggered synchronously before the call
returns, and the particle counter is 0 immediately after. -/
theorem claim4_flush_threshold (w : ChunkWriter) (s : Storage) (p : Packet)
    (h : 200000 ≤ w.particle_counter + particleCount p) :
    add_packet w s p = flush (bufferPacket w p) s ∧
    (add_packet w s p).1.particle_counter = 0 := by
  have hth : 200000 ≤ (bufferPacket w p).particle_counter := h
  have h1 : add_packet w s p = flush (bufferPacket w p) s := by
    rw [add_packet_eq, if_pos hth]
  exact ⟨h1, by rw [h1]; exact flush_fst_counter _ _⟩

/-- Witness for C4 at a writer holding 199999 particles plus a 2-particle
record. -/
theorem claim4_flush_threshold_witness :
    200000 ≤ bigWriter.particle_counter + particleCount smallP1 ∧
    (add_packet bigWriter initStorage smallP1 =
      flush (bufferPacket bigWriter smallP1) initStorage ∧
     (add_packet bigWriter initStorage smallP1).1.particle_counter = 0) :=
  ⟨by decide, claim4_flush_threshold bigWriter initStorage smallP1 (by decide)⟩

/-- Claim C5: records appended after the last automatic flush (i.e. while the
counter stays below the threshold) change nothing in the persisted storage
directory until an explicit `flush()`, and a query over a window overlapping
none of the persisted index entries returns the empty "no data" outcome. -/
theorem claim5_tail_durability (w : ChunkWriter) (s : Storage) (ps : List Packet)
    (idx : IndexCsv) (lo hi : ℚ)
    (hcnt : w.particle_counter + (ps.map particleCount).sum < 200000)
    (hidx : s.indexFile = some idx)
    (hov : ∀ e ∈ idx.rows, ¬ (lo ≤ e.max_ts ∧ e.min_ts ≤ hi)) :
    (addPackets w s ps).2 = s ∧
    cmd_read (addPackets w s ps).2 lo hi = Except.ok ([], none) := by
  obtain ⟨-, hs⟩ := addPackets_no_flush ps w s hcnt
  refine ⟨hs, ?_⟩
  rw [hs]
  exact cmd_read_of_no_overlap s idx lo hi hidx hov

/-- Witness for C5: one tail record after a flushed record, querying past the
persisted time range. -/
theorem claim5_tail_durability_witness :
    initWriter.particle_counter + ([smallP2].map particleCount).sum < 200000 ∧
    (ingest [smallP1]).2.indexFile = some { header := indexCsvHeader, rows := [⟨5, 5, 10⟩] } ∧
    (∀ e ∈ ({ header := indexCsvHeader, rows := [⟨5, 5, 10⟩] } : IndexCsv).rows,
      ¬ ((100 : ℚ) ≤ e.max_ts ∧ e.min_ts ≤ 200)) ∧
    ((addPackets initWriter (ingest [smallP1]).2 [smallP2]).2 = (ingest [smallP1]).2 ∧
     cmd_read (addPackets initWriter (ingest [smallP1]).2 [smallP2]).2 100 200 =
       Except.ok ([], none)) :=
  ⟨by decide, by decide, by decide,
    claim5_tail_durability initWriter (ingest [smallP1]).2 [smallP2]
      { header := indexCsvHeader, rows := [⟨5, 5, 10⟩] } 100 200
      (by decide) (by decide) (by decide)⟩

/-- Claim C6, amended: in every reachable state whose chunk filenames are
pairwise distinct (no leading-timestamp collision), every index entry has
`min_ts ≤ max_ts` and `min_ts`/`max_ts` equal the true min/max of the `ts_0`
column of the chunk file it names. With a collision, a stale entry's bounds
refer to the overwritten file contents (see the counterexample). -/
theorem claim6_index_chunk_consistency (ops : List Op)
    (hws : ∀ p ∈ opPackets ops, WellShaped p)
    (hnd : ((((run ops).2).files).map Prod.fst).Nodup) :
    ∀ idx : IndexCsv, (run ops).2.indexFile = some idx →
      ∀ e ∈ idx.rows, e.min_ts ≤ e.max_ts ∧
        ∃ c, lookupFile (run ops).2.files e.filename = some c ∧ c ≠ [] ∧
          e.min_ts = tsMin (c.map Row.ts_0) ∧ e.max_ts = tsMax (c.map Row.ts_0) := by
  obtain ⟨chunks, h⟩ := run_inv ops hws
  intro idx hidx e he
  by_cases hch : chunks = []
  · rw [h.inv_index, if_pos hch] at hidx
    exact absurd hidx (by simp)
  · rw [h.inv_index, if_neg hch] at hidx
    obtain rfl := Option.some.inj hidx
    obtain ⟨c, hc, rfl⟩ := List.mem_map.mp he
    have hcne : c ≠ [] := h.inv_ne c hc
    have hmapne : c.map Row.ts_0 ≠ [] := by
      intro hm
      exact hcne (List.map_eq_nil_iff.mp hm)
    refine ⟨tsMin_le_tsMax _ hmapne, c, ?_, hcne, rfl, rfl⟩
    apply lookupFile_of_nodup _ _ _ hnd
    rw [h.inv_files]
    exact List.mem_reverse.mpr (List.mem_map_of_mem _ hc)

/-- Witness for C6 on a collision-free run with one flushed chunk. -/
theorem claim6_index_chunk_consistency_witness :
    (∀ p ∈ opPackets [Op.add smallP1, Op.flush], WellShaped p) ∧
    ((((run [Op.add smallP1, Op.flush]).2).files).map Prod.fst).Nodup ∧
    (∀ idx : IndexCsv, (run [Op.add smallP1, Op.flush]).2.indexFile = some idx →
      ∀ e ∈ idx.rows, e.min_ts ≤ e.max_ts ∧
        ∃ c, lookupFile (run [Op.add smallP1, Op.flush]).2.files e.filename = some c ∧ c ≠ [] ∧
          e.min_ts = tsMin (c.map Row.ts_0) ∧ e.max_ts = tsMax (c.map Row.ts_0)) :=
  ⟨by decide, by decide, claim6_index_chunk_consistency _ (by decide) (by decide)⟩

/-- Claim C6 as stated is false on the code: after two flushes whose chunks
share the leading timestamp 5, the index entry `⟨5, 5, 10⟩` still names chunk
file 5, but that file was overwritten and its `ts_0` column is now `[5, 3]`,
whose true minimum 3 and maximum 5 differ from the entry's `min_ts = 5` and
`max_ts = 10`. -/
theorem claim6_index_chunk_consistency_cex :
    (∀ p ∈ opPackets collideOps, WellShaped p) ∧
    (run collideOps).2.indexFile =
      some { header := indexCsvHeader, rows := [⟨5, 5, 10⟩, ⟨5, 3, 5⟩] } ∧
    lookupFile (run collideOps).2.files 5 = some [⟨5, [3], [3]⟩, ⟨3, [4], [4]⟩] ∧
    tsMin ([⟨5, [3], [3]⟩, ⟨3, [4], [4]⟩].map Row.ts_0) = 3 ∧
    tsMax ([⟨5, [3], [3]⟩, ⟨3, [4], [4]⟩].map Row.ts_0) = 5 ∧
    ¬ ((5 : ℚ) = 3 ∧ (10 : ℚ) = 5) := by decide

/-- Claim C7, amended: the index file's header is `filename,min_ts,max_ts`
(not `chunk_id,min_ts,max_ts`); it is created on the first write only (an
existing file keeps its header), and every flush of a non-empty buffer
appends exactly one data row at the end (chunk-creation order). -/
theorem claim7_index_file_format (w : ChunkWriter) (s : Storage)
    (hc : ¬ w.particle_counter = 0) :
    ∃ e : IndexEntry,
      (s.indexFile = none →
        (flush w s).2.indexFile = some { header := indexCsvHeader, rows := [e] }) ∧
      ∀ f : IndexCsv, s.indexFile = some f →
        (flush w s).2.indexFile = some { header := f.header, rows := f.rows ++ [e] } := by
  refine ⟨{ filename := w.buffer_timestamps.flatten.headD 0
            min_ts := tsMin w.buffer_timestamps.flatten
            max_ts := tsMax w.buffer_timestamps.flatten }, ?_, ?_⟩
  · intro hn
    rw [flush_eq_of_ne w s hc, hn]
    rfl
  · intro f hf
    rw [flush_eq_of_ne w s hc, hf]

/-- Witness for C7 at a freshly buffered two-particle record over an empty
storage directory. -/
theorem claim7_index_file_format_witness :
    ¬ (bufferPacket initWriter smallP1).particle_counter = 0 ∧
    (∃ e : IndexEntry,
      (initStorage.indexFile = none →
        (flush (bufferPacket initWriter smallP1) initStorage).2.indexFile =
          some { header := indexCsvHeader, rows := [e] }) ∧
      ∀ f : IndexCsv, initStorage.indexFile = some f →
        (flush (bufferPacket initWriter smallP1) initStorage).2.indexFile =
          some { header := f.header, rows := f.rows ++ [e] }) :=
  ⟨by decide, claim7_index_file_format _ _ (by decide)⟩

/-- Claim C7 as stated is false about the header: the header `flush` writes is
`filename,min_ts,max_ts`, not `chunk_id,min_ts,max_ts`. -/
theorem claim7_index_header_cex :
    ((run [Op.add smallP1, Op.flush]).2.indexFile).map IndexCsv.header =
      some indexCsvHeader ∧
    indexCsvHeader ≠ ["chunk_id", "min_ts", "max_ts"] := by decide

/-- Claim C8: a query window overlapping no index entry yields the normal
"no data found" outcome — an `Except.ok` with no rows and no opened chunk —
distinguishable from every `Except.error` I/O failure. -/
theorem claim8_empty_query (s : Storage) (idx : IndexCsv) (lo hi : ℚ)
    (hidx : s.indexFile = some idx)
    (hov : ∀ e ∈ idx.rows, ¬ (lo ≤ e.max_ts ∧ e.min_ts ≤ hi)) :
    cmd_read s lo hi = Except.ok ([], none) ∧
    ∀ err : ReadError, cmd_read s lo hi ≠ Except.error err := by
  have h := cmd_read_of_no_overlap s idx lo hi hidx hov
  refine ⟨h, fun err hcontra => ?_⟩
  rw [h] at hcontra
  exact Except.noConfusion hcontra

/-- Witness for C8: a window entirely after the single persisted chunk. -/
theorem claim8_empty_query_witness :
    (ingest [smallP1]).2.indexFile = some { header := indexCsvHeader, rows := [⟨5, 5, 10⟩] } ∧
    (∀ e ∈ ({ header := indexCsvHeader, rows := [⟨5, 5, 10⟩] } : IndexCsv).rows,
      ¬ ((100 : ℚ) ≤ e.max_ts ∧ e.min_ts ≤ 200)) ∧
    (cmd_read (ingest [smallP1]).2 100 200 = Except.ok ([], none) ∧
     ∀ err : ReadError, cmd_read (ingest [smallP1]).2 100 200 ≠ Except.error err) :=
  ⟨by decide, by decide,
    claim8_empty_query (ingest [smallP1]).2
      { header := indexCsvHeader, rows := [⟨5, 5, 10⟩] } 100 200 (by decide) (by decide)⟩

/-- Claim C9: after any sequence of operations the particle counter equals the
sum of the leading dimensions of the buffered scattering arrays, and after
every `add_packet` return the counter is strictly below 200000 (either the
threshold was not reached, or the synchronous flush reset it to 0). -/
theorem claim9_counter_invariant :
    (∀ ops : List Op, (run ops).1.particle_counter =
      (((run ops).1).buffer_scattering.map List.length).sum) ∧
    ∀ (w : ChunkWriter) (s : Storage) (p : Packet),
      (add_packet w s p).1.particle_counter < 200000 :=
  ⟨fun ops => runFrom_counter_sum ops (initWriter, initStorage) rfl,
    fun w s p => add_packet_counter_lt w s p⟩

/-- Claim C10: after two flushes whose buffers share the leading timestamp 5,
the second flush overwrites chunk file 5 yet appends a second index row with
the same filename; the index holds two entries naming that one file, and a
query overlapping both recorded ranges opens the file once per entry and
returns its matching rows twice. -/
theorem claim10_collision_duplication :
    ((run collideOps).2.indexFile).map (fun f => f.rows.map IndexEntry.filename) =
      some [5, 5] ∧
    lookupFile (run collideOps).2.files 5 = some [⟨5, [3], [3]⟩, ⟨3, [4], [4]⟩] ∧
    cmd_read (run collideOps).2 3 10 =
      Except.ok ([5, 5],
        some ([⟨5, [3], [3]⟩, ⟨3, [4], [4]⟩] ++ [⟨5, [3], [3]⟩, ⟨3, [4], [4]⟩])) := by decide

end MarkStorage
